import Mathlib

/-!
Verification of the boilerdaq result-graph / writer / controller core.

The repository ships two side-by-side variants of the core:
* `src/boilerdaq/daq.py` — the current implementation (namespace `Daq` below);
* `src/boilerdaq/__init__.py` — the legacy implementation (namespace `Legacy`).

Numeric sensor values are embedded as rationals (`ℚ`), idealising Python
float arithmetic; Python's `ZeroDivisionError` for float division by zero
is modelled explicitly with `Except`.  Hardware and instrument I/O
(`t_in`, `v_in`, VISA `query`/`write`, model fitting) are abstracted as
oracle parameters describing the outcome of the external call.
-/

namespace Boilerdaq

/-- Errors surfaced by the embedded operations, mirroring the Python
exceptions raised (`ULError`, `KeyError`, `ValueError` from `list.index`,
`ZeroDivisionError`, `AttributeError` on `None`, `VisaIOError`). -/
inductive DaqError where
  | ulError
  | keyError (key : String)
  | valueError (msg : String)
  | zeroDivisionError
  | attributeError
  | visaIOError
  deriving DecidableEq, Repr

/-- Outcome of a failed `mcculw.ul` hardware read (`ULError`). -/
inductive ULError where
  | ulError
  deriving DecidableEq, Repr

/-- Outcome of a failed VISA instrument call (`VisaIOError`). -/
inductive VisaError where
  | visaIOError
  deriving DecidableEq, Repr

/-- `daq.py`: `PLOT_HISTORY_DURATION = 5` (minutes). -/
def PLOT_HISTORY_DURATION : Nat := 5

/-- `daq.py`: `POLLING_INTERVAL = 2000` (milliseconds). -/
def POLLING_INTERVAL : Nat := 2000

/-- `daq.py`: `PLOT_HISTORY_LENGTH = PLOT_HISTORY_DURATION * 60 * 1000 //
POLLING_INTERVAL`, the `deque` capacity of every `Result.history`. -/
def PLOT_HISTORY_LENGTH : Nat := PLOT_HISTORY_DURATION * 60 * 1000 / POLLING_INTERVAL

/-- `__init__.py`: `HISTORY_LENGTH = 300`, the legacy history capacity. -/
def HISTORY_LENGTH : Nat := 300

/-- `collections.deque(maxlen := cap).append v`: append on the right,
evicting from the left when the buffer is at capacity.  For
`h.length ≤ cap` this is exactly `h ++ [v]` when below capacity and
`h.tail ++ [v]` when full. -/
def dequeAppend (cap : Nat) (h : List ℚ) (v : ℚ) : List ℚ :=
  List.drop (h.length + 1 - cap) (h ++ [v])

/-- `deque.extend vs`: repeated `append`, with eviction. -/
def dequeExtend (cap : Nat) (h : List ℚ) (vs : List ℚ) : List ℚ :=
  vs.foldl (dequeAppend cap) h

namespace Daq

/-- `daq.py` `Sensor` parameter record (CSV row). -/
structure Sensor where
  name : String
  board : Int
  channel : Int
  reading : String
  unit : String
  deriving DecidableEq, Repr

/-- `daq.py` `UNIT_TYPES = {"C": 0, "F": 1, "K": 2, "V": 5}`. -/
def UNIT_TYPES : List (String × Nat) := [("C", 0), ("F", 1), ("K", 2), ("V", 5)]

/-- Run-time state of a `daq.py` `Result` node: the current `value` and the
bounded `history` deque.  (The immutable `source` record is passed to the
individual `update` functions as explicit parameters.) -/
structure ResultState where
  value : ℚ
  history : List ℚ
  deriving DecidableEq, Repr

/-- `daq.py` `Result.update`: `self.history.append(self.value)`. -/
def Result.update (cap : Nat) (s : ResultState) : ResultState :=
  { s with history := dequeAppend cap s.history s.value }

/-- N successive base updates, the i-th performed after the variant wrote
`vs[i]` into `value` (every subclass sets `self.value` and then calls
`super().update()`). -/
def Result.updates (cap : Nat) (s : ResultState) (vs : List ℚ) : ResultState :=
  vs.foldl (fun st v => Result.update cap { st with value := v }) s

/-- `daq.py` `Reading.update`.  The hardware reads `t_in`/`v_in` are
abstracted as oracles returning the read value or `ULError`.  The
`try`/`except ULError` block wraps the `UNIT_TYPES` lookup and the `t_in`
call; only `ULError` is caught (a `KeyError` from the lookup propagates),
and on `ULError` the sentinel `0` is substituted.  The `v_in` call for
voltage channels is not guarded, so its failure propagates. -/
def Reading.update (cap : Nat) (s : ResultState) (sensor : Sensor)
    (tIn : Int → Int → Nat → Except ULError ℚ)
    (vIn : Int → Int → Nat → Except ULError ℚ) : Except DaqError ResultState :=
  if sensor.reading = "temperature" then
    match UNIT_TYPES.lookup sensor.unit with
    | none => .error (.keyError sensor.unit)
    | some unit_int =>
      match tIn sensor.board sensor.channel unit_int with
      | .ok v => .ok (Result.update cap { s with value := v })
      | .error _ => .ok (Result.update cap { s with value := 0 })
  else if sensor.reading = "voltage" then
    match vIn sensor.board sensor.channel 0 with
    | .ok v => .ok (Result.update cap { s with value := v })
    | .error _ => .error .ulError
  else
    .ok (Result.update cap s)

/-- `daq.py` `ScaledResult.update`:
`self.value = self.unscaled_result.value * self.source.scale + self.source.offset`.
`upstream` is the current value of the unscaled upstream result. -/
def ScaledResult.update (cap : Nat) (s : ResultState)
    (scale offset upstream : ℚ) : ResultState :=
  Result.update cap { s with value := upstream * scale + offset }

/-- `daq.py` `Flux.update`:
`self.value = conductivity / length * (origin_result.value - distant_result.value)`.
Python float division by zero raises `ZeroDivisionError`, modelled as the
error branch. -/
def Flux.update (cap : Nat) (s : ResultState)
    (conductivity length origin distant : ℚ) : Except DaqError ResultState :=
  if length = 0 then .error .zeroDivisionError
  else .ok (Result.update cap
    { s with value := conductivity / length * (origin - distant) })

/-- `daq.py` `ExtrapResult.update`:
`self.value = origin_result.value - (flux_result.value * length / conductivity)`.
Division by a zero `conductivity` raises `ZeroDivisionError`. -/
def ExtrapResult.update (cap : Nat) (s : ResultState)
    (conductivity length origin flux : ℚ) : Except DaqError ResultState :=
  if conductivity = 0 then .error .zeroDivisionError
  else .ok (Result.update cap
    { s with value := origin - flux * length / conductivity })

/-- `daq.py` `FitResult.update`: runs `fit_from_params` (external
`boilercore` call) and stores `fits[self.name]`; the fitted output for
`self.name` is abstracted as the oracle value `fitted`. -/
def FitResult.update (cap : Nat) (s : ResultState) (fitted : ℚ) : ResultState :=
  Result.update cap { s with value := fitted }

/-- Effects performed on the VISA instrument handle. -/
inductive VisaEffect where
  | write (cmd : String)
  | closeHandle
  deriving DecidableEq, Repr

/-- Run-time state of a `daq.py` `PowerResult`: the `source` name/unit
(`PowerParam`), current value and history, the instrument handle
(`self.instrument`, `None` until `open()`), and the current limit. -/
structure PowerState where
  name : String
  unit : String
  value : ℚ
  history : List ℚ
  instrument : Option Unit
  current_limit : ℚ
  deriving DecidableEq, Repr

/-- The `super().update()` call at the end of `PowerResult.update`. -/
def PowerResult.append (cap : Nat) (s : PowerState) : PowerState :=
  { s with history := dequeAppend cap s.history s.value }

/-- `daq.py` `PowerResult.update`.  `query` abstracts
`self.instrument.query`, already parsed to a rational.  If the handle is
`None`, `None.query` raises `AttributeError`, which the
`except VisaIOError` clause does not catch.  On `VisaIOError` a warning is
issued and `value` is left unchanged.  `super().update()` runs after the
`try` block in every non-raising path. -/
def PowerResult.update (cap : Nat) (s : PowerState)
    (query : String → Except VisaError ℚ) : Except DaqError PowerState :=
  if s.name = "V" then
    match s.instrument with
    | none => .error .attributeError
    | some _ =>
      match query "measure:voltage?" with
      | .ok v => .ok (PowerResult.append cap { s with value := v })
      | .error _ => .ok (PowerResult.append cap s)
  else if s.name = "I" then
    match s.instrument with
    | none => .error .attributeError
    | some _ =>
      match query "measure:current?" with
      | .ok v => .ok (PowerResult.append cap { s with value := v })
      | .error _ => .ok (PowerResult.append cap s)
  else .ok (PowerResult.append cap s)

/-- `daq.py` `PowerResult.close`: `if not self.instrument: return`, else
write `output:state off`, close the handle, set `self.instrument = None`.
The `write` is unguarded, so a VISA failure (modelled by
`writeOk = false`) propagates before the handle is released. -/
def PowerResult.close (s : PowerState) (writeOk : Bool) :
    Except DaqError (PowerState × List VisaEffect) :=
  match s.instrument with
  | none => .ok (s, [])
  | some _ =>
    if writeOk then
      .ok ({ s with instrument := none },
        [.write "output:state off", .closeHandle])
    else .error .visaIOError

/-- A `daq.py` `Result` as seen by the registry and the `Writer`: its
`source.name`, `source.unit`, current value and history.  `get_result`
and `Writer` only use this base-class view of a result. -/
structure NamedResult where
  name : String
  unit : String
  value : ℚ
  history : List ℚ
  deriving DecidableEq, Repr

instance : Inhabited NamedResult := ⟨⟨"", "", 0, []⟩⟩

/-- Base-class `Result.update` on the registry view:
`self.history.append(self.value)`. -/
def NamedResult.update (cap : Nat) (r : NamedResult) : NamedResult :=
  { r with history := dequeAppend cap r.history r.value }

/-- `daq.py` `get_result(name, results)`: `result_names.index(name)`
returns the first index whose source name equals `name` and raises
`ValueError` when there is none; the result at that index is returned. -/
def get_result (name : String) (results : List NamedResult) :
    Except DaqError NamedResult :=
  match results with
  | [] => .error (.valueError name)
  | r :: rest => if r.name = name then .ok r else get_result name rest

/-- Split a character list at spaces (keeping empty pieces). -/
def splitOnSpace : List Char → List (List Char)
  | [] => [[]]
  | c :: cs =>
    if c = ' ' then [] :: splitOnSpace cs
    else
      match splitOnSpace cs with
      | [] => [[c]]
      | w :: ws => (c :: w) :: ws

/-- Python `str.split()` on the group's value string: split on runs of
whitespace, dropping empty pieces. -/
def splitNames (val : String) : List String :=
  ((splitOnSpace val.toList).map (fun w => String.mk w)).filter
    (fun piece => piece ≠ "")

/-- The member-resolution loop of `ResultGroup.__init__` for one group
value: resolve each space-separated name via `get_result`, failing at the
first unresolvable name. -/
def resolveNames (results : List NamedResult) :
    List String → Except DaqError (List NamedResult)
  | [] => .ok []
  | n :: ns =>
    match get_result n results with
    | .error e => .error e
    | .ok r =>
      match resolveNames results ns with
      | .error e => .error e
      | .ok rs => .ok (r :: rs)

/-- `daq.py` `ResultGroup.__init__`: for each `(key, val)` of the group
mapping in order, split `val` and resolve every member name, storing the
ordered member list under `key`.  No `Result.update` is invoked anywhere
in construction: this is pure name resolution. -/
def ResultGroup.make (results : List NamedResult) :
    List (String × String) → Except DaqError (List (String × List NamedResult))
  | [] => .ok []
  | (key, val) :: rest =>
    match resolveNames results (splitNames val) with
    | .error e => .error e
    | .ok rs =>
      match ResultGroup.make results rest with
      | .error e => .error e
      | .ok gs => .ok ((key, rs) :: gs)

/-- Observable outcome of one `Controller.update` call: the stored
feedback value after the call, the values written to the controllable
result, and whether the call raised. -/
structure ControlStep where
  feedback_value : ℚ
  writes : List ℚ
  raised : Bool
  deriving DecidableEq, Repr

/-- Persistent `daq.py` `Controller` state between ticks. -/
structure ControllerState where
  feedback_value : ℚ
  deriving DecidableEq, Repr

/-- `daq.py` `Controller.update`: store the current feedback value,
compute `control_value = self.pid(feedback)` and write it.  The PID
computation (external `simple_pid`) is abstracted as `pid`.  There is no
plausibility check and no exception in this variant. -/
def Controller.update (_c : ControllerState) (feedback : ℚ)
    (pid : ℚ → ℚ) : ControlStep :=
  { feedback_value := feedback, writes := [pid feedback], raised := false }

/-- Column label of `Writer.add`:
`f"{result.source.name} ({result.source.unit})"`. -/
def NamedResult.label (r : NamedResult) : String :=
  r.name ++ " (" ++ r.unit ++ ")"

/-- State of a `daq.py` `Writer`.  Registered `Result` objects live in a
`store` arena; Python object identity is modelled by the arena index, so
the same `Result` registered under two paths appears as the same index in
two entries of `result_groups`.  `rows` holds, per registered file, the
data rows appended so far (timestamp and values, in column order).
Filename timestamping of `paths` is cosmetic and not modelled. -/
structure WriterState where
  store : List NamedResult
  paths : List String
  result_groups : List (List Nat)
  fieldname_groups : List (List String)
  rows : List (List (String × List ℚ))
  time : String
  deriving DecidableEq, Repr

/-- `result.update()` applied to the result object at arena index `i`. -/
def updateAt (cap : Nat) (st : List NamedResult) (i : Nat) : List NamedResult :=
  match st[i]? with
  | some r => st.set i (NamedResult.update cap r)
  | none => st

/-- `for result in results: result.update()` over one registered group. -/
def updateIds (cap : Nat) (st : List NamedResult) (ids : List Nat) :
    List NamedResult :=
  ids.foldl (updateAt cap) st

/-- The nested loop of `Writer.update`:
`for results in self.result_groups: for result in results: result.update()`. -/
def updateGroups (cap : Nat) (st : List NamedResult) (gs : List (List Nat)) :
    List NamedResult :=
  gs.foldl (updateIds cap) st

/-- The per-result preparation loop of `Writer.add`: `result.update()`
then `result.history.extend([result.value] * (PLOT_HISTORY_LENGTH - 1))`.
(The `PowerResult.one_shot` branch applies to hardware-backed results and
is outside this base-class view.) -/
def addPrep (cap : Nat) (st : List NamedResult) (i : Nat) : List NamedResult :=
  match st[i]? with
  | some r =>
    let r1 := NamedResult.update cap r
    st.set i
      { r1 with
        history := dequeExtend cap r1.history (List.replicate (cap - 1) r1.value) }
  | none => st

/-- `daq.py` `Writer.add`: compose the fieldnames `["time", *sources]`
from the results' names and units, update each result and pad its
history, then create the file with the header row and a first data row
holding each result's current value, in fieldname order; finally record
path, result group and fieldname group. -/
def Writer.add (cap : Nat) (w : WriterState) (path : String) (ids : List Nat) :
    WriterState :=
  let fieldnames := "time" :: ids.map (fun i => ((w.store.getD i default).label))
  let store := ids.foldl (addPrep cap) w.store
  let values := ids.map (fun i => (store.getD i default).value)
  { store := store
    paths := w.paths ++ [path]
    result_groups := w.result_groups ++ [ids]
    fieldname_groups := w.fieldname_groups ++ [fieldnames]
    rows := w.rows ++ [[(w.time, values)]]
    time := w.time }

/-- `daq.py` `Writer.__init__`: empty registration lists, then
`self.add(path, results)`. -/
def Writer.init (cap : Nat) (t0 : String) (store : List NamedResult)
    (path : String) (ids : List Nat) : WriterState :=
  Writer.add cap
    { store := store, paths := [], result_groups := [], fieldname_groups := []
      rows := [], time := t0 } path ids

/-- `daq.py` `Writer.write`: for each registered `(path, results,
fieldnames)` triple, append one row `[self.time, *values]` with the
values taken from the group's results in the fixed group order. -/
def Writer.write (w : WriterState) : WriterState :=
  { w with
    rows := (w.rows.zip w.result_groups).map
      (fun p => p.1 ++ [(w.time, p.2.map (fun i => (w.store.getD i default).value))]) }

/-- `daq.py` `Writer.update`: stamp `self.time = datetime.now()`, run
every registered group's results' `update()`, then `self.write()`. -/
def Writer.update (cap : Nat) (w : WriterState) (now : String) : WriterState :=
  Writer.write
    { w with time := now, store := updateGroups cap w.store w.result_groups }

end Daq

namespace Legacy

/-- `__init__.py`: `DELAY = 2` (seconds). -/
def DELAY : ℚ := 2

/-- Run-time state of a legacy `Result`: current `value` plus the `time`
and `history` deques, both of capacity `HISTORY_LENGTH` and prefilled
with `HISTORY_LENGTH` zeros by `Result.__init__`. -/
structure ResultState where
  value : ℚ
  time : List ℚ
  history : List ℚ
  deriving DecidableEq, Repr

/-- The prefilled deque contents set up by legacy `Result.__init__`. -/
def Result.initBuffer : List ℚ := List.replicate HISTORY_LENGTH 0

/-- `__init__.py` `Result.update`: `self.history.append(self.value)` and
`self.time.append(self.time[-1] + DELAY)`.  The `time` deque is prefilled
and hence never empty, so `self.time[-1]` is its last element. -/
def Result.update (s : ResultState) : ResultState :=
  { s with
    history := dequeAppend HISTORY_LENGTH s.history s.value
    time := dequeAppend HISTORY_LENGTH s.time ((s.time.getLast?.getD 0) + DELAY) }

/-- Run-time state of a legacy `PowerResult`.  Its `__init__` does not
call `Result.__init__` and its `update` does not call `Result.update`,
so the `history` attribute is never created nor written; it is carried
here unchanged to make that observable. -/
structure PowerState where
  name : String
  value : ℚ
  history : List ℚ
  deriving DecidableEq, Repr

/-- `__init__.py` `PowerResult.update`: query voltage or current
(abstracted by `query`), set `value` on success, print the exception and
leave `value` unchanged on `VisaIOError`.  Unlike every other variant it
does not call `super().update()`, so nothing is appended to `history`. -/
def PowerResult.update (s : PowerState)
    (query : String → Except VisaError ℚ) : PowerState :=
  if s.name = "V" then
    match query "measure:voltage?" with
    | .ok v => { s with value := v }
    | .error _ => s
  else if s.name = "I" then
    match query "measure:current?" with
    | .ok v => { s with value := v }
    | .error _ => s
  else s

/-- Persistent legacy `Controller` state between ticks: the stored
feedback value compared against the next tick's reading. -/
structure ControllerState where
  feedback_value : ℚ
  deriving DecidableEq, Repr

/-- Observable outcome of one legacy `Controller.update` call. -/
structure ControlStep where
  feedback_value : ℚ
  writes : List ℚ
  raised : Bool
  deriving DecidableEq, Repr

/-- `__init__.py` `Controller.update`.  `active` abstracts the real-time
guard `datetime.now() - self.start_time > self.start_delay`.  Once
active: remember the last feedback value, read the new one, and if
`abs(new - last) > 10` or `new < 0`, write `0` to the control result and
raise (`SafetyAbort`); otherwise write the PID output (`pid` abstracts
`simple_pid`). -/
def Controller.update (c : ControllerState) (active : Bool) (feedback : ℚ)
    (pid : ℚ → ℚ) : ControlStep :=
  if active then
    if abs (feedback - c.feedback_value) > 10 ∨ feedback < 0 then
      { feedback_value := feedback, writes := [0], raised := true }
    else
      { feedback_value := feedback, writes := [pid feedback], raised := false }
  else
    { feedback_value := c.feedback_value, writes := [], raised := false }

end Legacy

/-- Deterministic test vector `[0, 1, …, n-1]` used to instantiate the
history claims at the program's capacity. -/
def sampleValues (n : Nat) : List ℚ :=
  List.map (fun k => ((k : Nat) : ℚ)) (List.range n)

/-! ## Helper lemmas -/

theorem dequeAppend_length (cap : Nat) (h : List ℚ) (v : ℚ) :
    (dequeAppend cap h v).length = min (h.length + 1) cap := by
  simp only [dequeAppend, List.length_drop, List.length_append,
    List.length_singleton]
  omega

theorem dequeAppend_getLast? (cap : Nat) (hcap : 0 < cap) (h : List ℚ) (v : ℚ) :
    (dequeAppend cap h v).getLast? = some v := by
  unfold dequeAppend
  rw [List.drop_append_of_le_length (by simp; omega)]
  exact List.getLast?_concat _

theorem dequeExtend_eq_drop (cap : Nat) :
    ∀ (vs h0 : List ℚ), h0.length ≤ cap →
      dequeExtend cap h0 vs = (h0 ++ vs).drop (h0.length + vs.length - cap) := by
  intro vs
  induction vs with
  | nil =>
    intro h0 hh
    have hz : h0.length - cap = 0 := by omega
    simp [dequeExtend, hz]
  | cons v vs ih =>
    intro h0 hh
    have step : dequeExtend cap h0 (v :: vs) =
        dequeExtend cap (dequeAppend cap h0 v) vs := rfl
    have hlen : (dequeAppend cap h0 v).length = min (h0.length + 1) cap :=
      dequeAppend_length cap h0 v
    rw [step, ih (dequeAppend cap h0 v) (by omega), hlen]
    have hd : dequeAppend cap h0 v = (h0 ++ [v]).drop (h0.length + 1 - cap) := rfl
    rw [hd, ← List.drop_append_of_le_length (by simp), List.drop_drop]
    have harr : (h0 ++ [v]) ++ vs = h0 ++ v :: vs := by simp
    rw [harr]
    congr 1
    simp only [List.length_cons]
    omega

theorem result_updates_history (cap : Nat) (s : Daq.ResultState) (vs : List ℚ) :
    (Daq.Result.updates cap s vs).history = dequeExtend cap s.history vs := by
  induction vs generalizing s with
  | nil => rfl
  | cons v vs ih =>
    have step : Daq.Result.updates cap s (v :: vs) =
        Daq.Result.updates cap (Daq.Result.update cap { s with value := v }) vs := rfl
    rw [step, ih]
    rfl

/-! ## Claim theorems -/

/-- Claim C3 (confirmed): for every Result and every sequence of more
than `cap` calls to `update()` (the i-th performed after the variant set
`value` to `vs[i]`), the history buffer has length exactly `cap` and
contains exactly the last `cap` appended values in append order, the
oldest evicted first.  `cap` is `PLOT_HISTORY_LENGTH = 150` in `daq.py`
(fresh history empty) and `HISTORY_LENGTH = 300` in the legacy
`__init__.py` (history prefilled with 300 zeros); both satisfy the
`s.history.length ≤ cap` side condition. -/
theorem result_history_fifo (cap : Nat) (s : Daq.ResultState) (vs : List ℚ)
    (hs : s.history.length ≤ cap) (hN : cap < vs.length) :
    (Daq.Result.updates cap s vs).history.length = cap ∧
    (Daq.Result.updates cap s vs).history = vs.drop (vs.length - cap) := by
  rw [result_updates_history, dequeExtend_eq_drop cap vs s.history hs]
  constructor
  · simp only [List.length_drop, List.length_append]
    omega
  · have hidx : s.history.length + vs.length - cap =
        s.history.length + (vs.length - cap) := by omega
    rw [hidx, List.drop_append]

theorem result_history_fifo_witness :
    (Daq.Result.updates PLOT_HISTORY_LENGTH ⟨0, []⟩ (sampleValues 151)).history.length
        = PLOT_HISTORY_LENGTH ∧
    (Daq.Result.updates PLOT_HISTORY_LENGTH ⟨0, []⟩ (sampleValues 151)).history
        = (sampleValues 151).drop ((sampleValues 151).length - PLOT_HISTORY_LENGTH) :=
  result_history_fifo PLOT_HISTORY_LENGTH ⟨0, []⟩ (sampleValues 151)
    (by decide) (by
      have hlen : (sampleValues 151).length = 151 := by
        simp only [sampleValues, List.length_map, List.length_range]
      rw [hlen]
      decide)

/-- Claim C5 (confirmed): whenever `Flux.update` returns, the new value
is `conductivity / length * (origin - distant)` — the sign convention is
origin minus distant. -/
theorem flux_update_value (cap : Nat) (s : Daq.ResultState)
    (conductivity length origin distant : ℚ) (s' : Daq.ResultState)
    (h : Daq.Flux.update cap s conductivity length origin distant = .ok s') :
    s'.value = conductivity / length * (origin - distant) := by
  by_cases hL : length = 0
  · simp [Daq.Flux.update, hL] at h
  · simp only [Daq.Flux.update, hL, if_neg, ite_false, Except.ok.injEq] at h
    rw [← h]
    rfl

theorem flux_update_value_witness :
    (Daq.ResultState.mk (7 / 2) [7 / 2]).value = (2 : ℚ) / 4 * (10 - 3) :=
  flux_update_value 150 ⟨0, []⟩ 2 4 10 3 ⟨7 / 2, [7 / 2]⟩ (by
    norm_num [Daq.Flux.update, Daq.Result.update, dequeAppend])

/-- Claim C6 (confirmed): after `ScaledResult.update`, the value is
`upstream.value * scale + offset`. -/
theorem scaled_update_value (cap : Nat) (s : Daq.ResultState)
    (scale offset upstream : ℚ) :
    (Daq.ScaledResult.update cap s scale offset upstream).value
      = upstream * scale + offset := rfl

/-- Claim C10 (confirmed): `Flux.update` divides by the flux parameter's
`length` and `ExtrapResult.update` divides by the extrapolation
parameter's `conductivity` without any guard: a zero parameter raises
`ZeroDivisionError`, and under the respective nonzero preconditions both
updates complete without error. -/
theorem flux_extrap_unguarded_division (cap : Nat) (s t : Daq.ResultState)
    (k L o d kE LE oE f : ℚ) :
    (L = 0 → Daq.Flux.update cap s k L o d = .error .zeroDivisionError) ∧
    (kE = 0 → Daq.ExtrapResult.update cap t kE LE oE f = .error .zeroDivisionError) ∧
    (L ≠ 0 → Daq.Flux.update cap s k L o d
        = .ok (Daq.Result.update cap { s with value := k / L * (o - d) })) ∧
    (kE ≠ 0 → Daq.ExtrapResult.update cap t kE LE oE f
        = .ok (Daq.Result.update cap { t with value := oE - f * LE / kE })) :=
  ⟨fun h => by simp [Daq.Flux.update, h],
   fun h => by simp [Daq.ExtrapResult.update, h],
   fun h => by simp [Daq.Flux.update, h],
   fun h => by simp [Daq.ExtrapResult.update, h]⟩

theorem flux_extrap_unguarded_division_witness :
    Daq.Flux.update 150 ⟨0, []⟩ 3 0 10 4 = .error .zeroDivisionError ∧
    Daq.ExtrapResult.update 150 ⟨0, []⟩ 0 2 10 4 = .error .zeroDivisionError ∧
    Daq.Flux.update 150 ⟨0, []⟩ 3 1 10 4
        = .ok (Daq.Result.update 150 ⟨3 / 1 * (10 - 4), []⟩) ∧
    Daq.ExtrapResult.update 150 ⟨0, []⟩ 1 2 10 4
        = .ok (Daq.Result.update 150 ⟨10 - 4 * 2 / 1, []⟩) := by
  have hA := flux_extrap_unguarded_division 150 ⟨0, []⟩ ⟨0, []⟩ 3 0 10 4 0 2 10 4
  have hB := flux_extrap_unguarded_division 150 ⟨0, []⟩ ⟨0, []⟩ 3 1 10 4 1 2 10 4
  exact ⟨hA.1 rfl, hA.2.1 rfl, hB.2.2.1 (by norm_num), hB.2.2.2 (by norm_num)⟩

/-- Claim C1 counterexample: in the current `daq.py` `Controller`, a
feedback jump from `0` to `50` between consecutive ticks (far above the
10-unit implausibility threshold) does not zero the output and does not
raise: `update()` computes and writes the normal PID output (here `42`). -/
theorem controller_update_no_safety_guard :
    abs ((50 : ℚ) - 0) > 10 ∧
    (Daq.Controller.update ⟨0⟩ 50 (fun _ => 42)).writes = [42] ∧
    (Daq.Controller.update ⟨0⟩ 50 (fun _ => 42)).raised = false :=
  ⟨by norm_num, rfl, rfl⟩

/-- Claim C1 (amended theorem): in the legacy `__init__.py` `Controller`,
once the start delay has elapsed, if the feedback value changes by more
than 10 units between consecutive ticks or is negative, `update()` writes
`0` to the controllable Result and raises instead of computing a normal
PID output. -/
theorem legacy_controller_update_safety_abort (c : Legacy.ControllerState)
    (feedback : ℚ) (pid : ℚ → ℚ)
    (h : abs (feedback - c.feedback_value) > 10 ∨ feedback < 0) :
    (Legacy.Controller.update c true feedback pid).writes = [0] ∧
    (Legacy.Controller.update c true feedback pid).raised = true := by
  simp [Legacy.Controller.update, h]

theorem legacy_controller_update_safety_abort_witness :
    (Legacy.Controller.update ⟨0⟩ true 50 (fun _ => 42)).writes = [0] ∧
    (Legacy.Controller.update ⟨0⟩ true 50 (fun _ => 42)).raised = true :=
  legacy_controller_update_safety_abort ⟨0⟩ 50 (fun _ => 42) (Or.inl (by norm_num))

/-- Claim C8 (confirmed): for a `Reading` whose sensor kind is
`temperature` (with a recognised unit), a hardware read failing with
`ULError` is caught by `update()`, the sentinel `0` is substituted as the
current value, and the call returns normally. -/
theorem reading_temperature_sentinel (cap : Nat) (s : Daq.ResultState)
    (sensor : Daq.Sensor) (tIn vIn : Int → Int → Nat → Except ULError ℚ)
    (u : Nat)
    (hkind : sensor.reading = "temperature")
    (hunit : Daq.UNIT_TYPES.lookup sensor.unit = some u)
    (hfail : tIn sensor.board sensor.channel u = .error .ulError) :
    Daq.Reading.update cap s sensor tIn vIn
      = .ok (Daq.Result.update cap { s with value := 0 }) := by
  simp [Daq.Reading.update, hkind, hunit, hfail]

theorem reading_temperature_sentinel_witness :
    Daq.Reading.update 150 ⟨5, []⟩ ⟨"T0", 0, 0, "temperature", "C"⟩
        (fun _ _ _ => .error .ulError) (fun _ _ _ => .error .ulError)
      = .ok (Daq.Result.update 150 ⟨0, []⟩) :=
  reading_temperature_sentinel 150 ⟨5, []⟩ ⟨"T0", 0, 0, "temperature", "C"⟩
    (fun _ _ _ => .error .ulError) (fun _ _ _ => .error .ulError) 0 rfl rfl rfl

theorem get_result_absent (name : String) (results : List Daq.NamedResult)
    (h : ∀ r ∈ results, r.name ≠ name) :
    Daq.get_result name results = .error (.valueError name) := by
  induction results with
  | nil => rfl
  | cons r rest ih =>
    have hr : r.name ≠ name := h r (by simp)
    have hrest : ∀ x ∈ rest, x.name ≠ name := fun x hx => h x (by simp [hx])
    simp [Daq.get_result, hr, ih hrest]

theorem resolveNames_ok_mem (results : List Daq.NamedResult)
    (ns : List String) :
    ∀ rs, Daq.resolveNames results ns = .ok rs →
      ∀ n ∈ ns, ∃ r, Daq.get_result n results = .ok r := by
  induction ns with
  | nil => simp
  | cons n ns ih =>
    intro rs h m hm
    unfold Daq.resolveNames at h
    cases hg : Daq.get_result n results with
    | error e => rw [hg] at h; exact absurd h (by simp)
    | ok r =>
      rw [hg] at h
      cases hrec : Daq.resolveNames results ns with
      | error e => rw [hrec] at h; exact absurd h (by simp)
      | ok rs' =>
        rcases List.mem_cons.mp hm with rfl | hmns
        · exact ⟨r, hg⟩
        · exact ih rs' hrec m hmns

theorem resultGroup_make_ok_resolves (results : List Daq.NamedResult)
    (gd : List (String × String)) :
    ∀ gs, Daq.ResultGroup.make results gd = .ok gs →
      ∀ kv ∈ gd, ∃ rs, Daq.resolveNames results (Daq.splitNames kv.2) = .ok rs := by
  induction gd with
  | nil => simp
  | cons kv gd ih =>
    intro gs h kv' hkv'
    obtain ⟨key, val⟩ := kv
    unfold Daq.ResultGroup.make at h
    cases hres : Daq.resolveNames results (Daq.splitNames val) with
    | error e => rw [hres] at h; exact absurd h (by simp)
    | ok rs =>
      rw [hres] at h
      cases hrec : Daq.ResultGroup.make results gd with
      | error e => rw [hrec] at h; exact absurd h (by simp)
      | ok gs' =>
        rcases List.mem_cons.mp hkv' with rfl | hh
        · exact ⟨rs, hres⟩
        · exact ih gs' hrec kv' hh

/-- Claim C7 (confirmed): `get_result` returns the Result at the first
index whose source name matches, raises `ValueError` (the `NotFound`
condition, from `list.index`) when no name matches, and `ResultGroup`
construction referencing an absent name fails with that error during
construction — the constructor performs pure name resolution and invokes
no `Result.update`. -/
theorem get_result_and_group_resolution (name : String)
    (results : List Daq.NamedResult) :
    (∀ i r, results.get? i = some r → r.name = name →
      (∀ j rj, j < i → results.get? j = some rj → rj.name ≠ name) →
      Daq.get_result name results = .ok r) ∧
    ((∀ r ∈ results, r.name ≠ name) →
      Daq.get_result name results = .error (.valueError name)) ∧
    (∀ gd : List (String × String),
      (∃ kv ∈ gd, ∃ n ∈ Daq.splitNames kv.2, ∀ r ∈ results, r.name ≠ n) →
      ∃ e, Daq.ResultGroup.make results gd = .error e) := by
  refine ⟨?_, get_result_absent name results, ?_⟩
  · intro i
    induction results generalizing i with
    | nil => intro r hr; simp at hr
    | cons x rest ih =>
      intro r hr hname hfirst
      cases i with
      | zero =>
        obtain rfl : x = r := by simpa using hr
        simp [Daq.get_result, hname]
      | succ i =>
        have hx : x.name ≠ name := hfirst 0 x (Nat.succ_pos i) rfl
        have hr' : rest.get? i = some r := by simpa using hr
        have hfirst' : ∀ j rj, j < i → rest.get? j = some rj → rj.name ≠ name := by
          intro j rj hj hg
          exact hfirst (j + 1) rj (by omega) (by simpa using hg)
        simp [Daq.get_result, hx, ih i r hr' hname hfirst']
  · intro gd ⟨kv, hkv, n, hn, habs⟩
    cases hmake : Daq.ResultGroup.make results gd with
    | error e => exact ⟨e, rfl⟩
    | ok gs =>
      obtain ⟨rs, hrs⟩ := resultGroup_make_ok_resolves results gd gs hmake kv hkv
      obtain ⟨r, hr⟩ := resolveNames_ok_mem results _ rs hrs n hn
      rw [get_result_absent n results habs] at hr
      exact absurd hr (by simp)

theorem get_result_and_group_resolution_witness :
    Daq.get_result "a" [⟨"a", "u", 1, []⟩, ⟨"b", "u", 2, []⟩, ⟨"a", "u", 3, []⟩]
        = .ok ⟨"a", "u", 1, []⟩ ∧
    Daq.get_result "z" [⟨"a", "u", 1, []⟩, ⟨"b", "u", 2, []⟩]
        = .error (.valueError "z") ∧
    (∃ e, Daq.ResultGroup.make [⟨"a", "u", 1, []⟩] [("g", "a z")] = .error e) := by
  refine ⟨?_, ?_, ?_⟩
  · exact (get_result_and_group_resolution "a" _).1 0 ⟨"a", "u", 1, []⟩ rfl rfl
      (fun j rj hj _ => absurd hj (Nat.not_lt_zero j))
  · exact (get_result_and_group_resolution "z" _).2.1 (by decide)
  · exact (get_result_and_group_resolution "w" _).2.2 [("g", "a z")]
      ⟨("g", "a z"), by simp, "z", by decide, by decide⟩

theorem updateAt_getElem?_self (cap : Nat) (st : List Daq.NamedResult) (i : Nat) :
    (Daq.updateAt cap st i)[i]?
      = (st[i]?).map (Daq.NamedResult.update cap) := by
  cases h : st[i]? with
  | none => simp [Daq.updateAt, h]
  | some r =>
    simp only [Daq.updateAt, h]
    rw [List.getElem?_set_self', h]
    rfl

theorem updateAt_getElem?_ne (cap : Nat) (st : List Daq.NamedResult) (i j : Nat)
    (hij : j ≠ i) :
    (Daq.updateAt cap st j)[i]? = st[i]? := by
  cases h : st[j]? with
  | none => simp [Daq.updateAt, h]
  | some r => simp [Daq.updateAt, h, List.getElem?_set_ne hij]

theorem updateIds_getElem? (cap : Nat) (ids : List Nat) :
    ∀ (st : List Daq.NamedResult) (i : Nat),
      (Daq.updateIds cap st ids)[i]?
        = (st[i]?).map ((Daq.NamedResult.update cap)^[ids.count i]) := by
  induction ids with
  | nil =>
    intro st i
    simp [Daq.updateIds]
  | cons j ids ih =>
    intro st i
    have step : Daq.updateIds cap st (j :: ids)
        = Daq.updateIds cap (Daq.updateAt cap st j) ids := rfl
    rw [step, ih]
    by_cases hji : j = i
    · subst hji
      rw [updateAt_getElem?_self, List.count_cons_self, Option.map_map,
        ← Function.iterate_succ]
    · rw [updateAt_getElem?_ne cap st i j hji,
        List.count_cons_of_ne (fun hc => hji hc.symm)]

theorem updateGroups_eq_flatten (cap : Nat) (gs : List (List Nat)) :
    ∀ st, Daq.updateGroups cap st gs = Daq.updateIds cap st gs.flatten := by
  induction gs with
  | nil => intro st; rfl
  | cons g gs ih =>
    intro st
    have step : Daq.updateGroups cap st (g :: gs)
        = Daq.updateGroups cap (Daq.updateIds cap st g) gs := rfl
    rw [step, ih, List.flatten_cons]
    show Daq.updateIds cap (Daq.updateIds cap st g) gs.flatten
        = (g ++ gs.flatten).foldl (Daq.updateAt cap) st
    rw [List.foldl_append]
    rfl

theorem iterate_update_fields (cap : Nat) :
    ∀ (n : Nat) (r : Daq.NamedResult),
      ((Daq.NamedResult.update cap)^[n] r).value = r.value ∧
      ((Daq.NamedResult.update cap)^[n] r).name = r.name ∧
      ((Daq.NamedResult.update cap)^[n] r).unit = r.unit := by
  intro n
  induction n with
  | zero => intro r; simp
  | succ n ih =>
    intro r
    rw [Function.iterate_succ_apply]
    exact ih (Daq.NamedResult.update cap r)

theorem updateGroups_getD_value (cap : Nat) (gs : List (List Nat))
    (st : List Daq.NamedResult) (i : Nat) :
    ((Daq.updateGroups cap st gs).getD i default).value
      = (st.getD i default).value := by
  have hd : ∀ (l : List Daq.NamedResult) (n : Nat),
      l.getD n default = (l[n]?).getD default := fun l n => List.getD_eq_getElem?_getD l n default
  rw [hd, hd, updateGroups_eq_flatten, updateIds_getElem?]
  cases h : st[i]? with
  | none => simp [h]
  | some r => simp [h, (iterate_update_fields cap _ r).1]

theorem updateGroups_getD_label (cap : Nat) (gs : List (List Nat))
    (st : List Daq.NamedResult) (i : Nat) :
    ((Daq.updateGroups cap st gs).getD i default).label
      = (st.getD i default).label := by
  have hd : ∀ (l : List Daq.NamedResult) (n : Nat),
      l.getD n default = (l[n]?).getD default := fun l n => List.getD_eq_getElem?_getD l n default
  rw [hd, hd, updateGroups_eq_flatten, updateIds_getElem?]
  cases h : st[i]? with
  | none => simp [h]
  | some r =>
    obtain ⟨-, hn, hu⟩ := iterate_update_fields cap (List.count i gs.flatten) r
    simp [h, Daq.NamedResult.label, hn, hu]

/-- Claim C2 counterexample: a `Result` registered under two paths is not
updated exactly once per `Writer.update()` — the nested loop updates it
once per path.  Concretely, one result registered under both of two
files sees two history appends in a single tick (history `[1, 1]`, not
`[1]`). -/
theorem writer_update_double_update :
    ((Daq.Writer.update 150
        { store := [⟨"a", "u", 1, []⟩], paths := ["p", "q"]
          result_groups := [[0], [0]]
          fieldname_groups := [["time", "a (u)"], ["time", "a (u)"]]
          rows := [[], []], time := "t0" } "t1").store.getD 0 default).history
      = [1, 1] ∧ [(1 : ℚ), 1] ≠ [1] :=
  ⟨rfl, by simp⟩

/-- Claim C2 (amended theorem): each call to `Writer.update()` stamps one
new timestamp, calls `update()` once per occurrence of each registered
Result across the registered groups (so a Result registered under `k`
paths is updated `k` times, not once), and appends exactly one row per
registered file whose values are taken from the group's results in the
fixed order established at file creation; the fieldname groups are
unchanged, so the columns keep the header's order. -/
theorem writer_update_per_registration (cap : Nat) (w : Daq.WriterState)
    (now : String) :
    (Daq.Writer.update cap w now).time = now ∧
    (Daq.Writer.update cap w now).result_groups = w.result_groups ∧
    (Daq.Writer.update cap w now).fieldname_groups = w.fieldname_groups ∧
    (∀ i : Nat, (Daq.Writer.update cap w now).store[i]?
        = (w.store[i]?).map
            ((Daq.NamedResult.update cap)^[(w.result_groups.flatten).count i])) ∧
    (∀ (j : Nat) (g : List Nat) (rs : List (String × List ℚ)),
      w.result_groups[j]? = some g → w.rows[j]? = some rs →
      (Daq.Writer.update cap w now).rows[j]?
        = some (rs ++ [(now, g.map (fun i => (w.store.getD i default).value))])) ∧
    (∀ (j : Nat) (g : List Nat), w.result_groups[j]? = some g →
      w.fieldname_groups[j]?
          = some ("time" :: g.map (fun i => (w.store.getD i default).label)) →
      (Daq.Writer.update cap w now).fieldname_groups[j]?
        = some ("time" :: g.map (fun i =>
            (((Daq.Writer.update cap w now).store.getD i default)).label))) := by
  refine ⟨rfl, rfl, rfl, ?_, ?_, ?_⟩
  · intro i
    show (Daq.updateGroups cap w.store w.result_groups)[i]? = _
    rw [updateGroups_eq_flatten, updateIds_getElem?]
  · intro j g rs hg hrs
    show ((w.rows.zip w.result_groups).map _)[j]? = _
    rw [List.getElem?_map,
      show (w.rows.zip w.result_groups)[j]? = some (rs, g) from
        List.getElem?_zip_eq_some.mpr ⟨hrs, hg⟩]
    have hmap : List.map
        (fun i => ((Daq.updateGroups cap w.store w.result_groups).getD i default).value) g
        = List.map (fun i => (w.store.getD i default).value) g :=
      List.map_congr_left
        (fun i _ => updateGroups_getD_value cap w.result_groups w.store i)
    rw [Option.map_some', hmap]
  · intro j g hg hfn
    show w.fieldname_groups[j]? = _
    rw [hfn]
    have hmap : List.map
        (fun i => ((Daq.updateGroups cap w.store w.result_groups).getD i default).label) g
        = List.map (fun i => (w.store.getD i default).label) g :=
      List.map_congr_left
        (fun i _ => updateGroups_getD_label cap w.result_groups w.store i)
    rw [show (Daq.Writer.update cap w now).store
        = Daq.updateGroups cap w.store w.result_groups from rfl, hmap]

theorem writer_update_per_registration_witness :
    (Daq.Writer.update 150
        (Daq.Writer.init 150 "t0" [⟨"a", "u", 1, []⟩] "results.csv" [0]) "t1").time
      = "t1" ∧
    (Daq.Writer.update 150
        (Daq.Writer.init 150 "t0" [⟨"a", "u", 1, []⟩] "results.csv" [0]) "t1").rows[0]?
      = some [("t0", [1]), ("t1", [1])] := by
  have h := writer_update_per_registration 150
    (Daq.Writer.init 150 "t0" [⟨"a", "u", 1, []⟩] "results.csv" [0]) "t1"
  exact ⟨h.1, h.2.2.2.2.1 0 [0] [("t0", [1])] rfl rfl⟩

/-- Claim C9 (confirmed): `PowerResult.close` on a never-opened or
already-closed instance (`instrument = None`) is a no-op returning
normally with no instrument effects, and whenever `close()` returns the
instrument handle has been released (a second `close` is again a
no-op). -/
theorem power_close_idempotent (s : Daq.PowerState) (writeOk : Bool) :
    Daq.PowerResult.close { s with instrument := none } writeOk
        = .ok ({ s with instrument := none }, []) ∧
    (∀ s' effects, Daq.PowerResult.close s writeOk = .ok (s', effects) →
      s'.instrument = none ∧ ∀ wo2, Daq.PowerResult.close s' wo2 = .ok (s', [])) := by
  constructor
  · rfl
  · intro s' effects h
    match hs : s.instrument with
    | none =>
      rw [show Daq.PowerResult.close s writeOk = .ok (s, []) by
        unfold Daq.PowerResult.close
        rw [hs]] at h
      obtain ⟨h1, h2⟩ := Prod.mk.injEq .. ▸ Except.ok.inj h
      subst h1
      refine ⟨hs, fun wo2 => ?_⟩
      unfold Daq.PowerResult.close
      rw [hs]
    | some u =>
      unfold Daq.PowerResult.close at h
      rw [hs] at h
      cases writeOk with
      | false => simp at h
      | true =>
        simp only [if_true, Except.ok.injEq, Prod.mk.injEq] at h
        obtain ⟨h1, h2⟩ := h
        subst h1
        exact ⟨rfl, fun wo2 => rfl⟩

/-- Claim C4 counterexample: the legacy `__init__.py` `PowerResult` never
calls the base `Result.update` (nor `Result.__init__`), so after
`update()` sets the value from the instrument the history buffer is not
appended: here the value becomes `5` while the history has no last
element at all. -/
theorem legacy_power_update_skips_history :
    (Legacy.PowerResult.update ⟨"V", 0, []⟩ (fun _ => .ok 5)).value = 5 ∧
    (Legacy.PowerResult.update ⟨"V", 0, []⟩ (fun _ => .ok 5)).history.getLast?
        = none :=
  ⟨rfl, rfl⟩

/-- Claim C4 (amended theorem): for every `daq.py` variant — `Reading`,
`ScaledResult`, `Flux`, `ExtrapResult`, `FitResult`, `PowerResult` —
whenever `update()` returns, the current value is the last element of the
history buffer (each variant sets `value` and then appends it via the
base `update`).  The legacy `__init__.py` `PowerResult` is excluded: its
`update` never appends to history (see the counterexample). -/
theorem update_value_eq_last_history (cap : Nat) (hcap : 0 < cap)
    (s : Daq.ResultState) (sensor : Daq.Sensor)
    (tIn vIn : Int → Int → Nat → Except ULError ℚ)
    (scale offset upstream fitted : ℚ) (k L o d kE LE oE f : ℚ)
    (ps : Daq.PowerState) (query : String → Except VisaError ℚ) :
    (∀ s', Daq.Reading.update cap s sensor tIn vIn = .ok s' →
      s'.history.getLast? = some s'.value) ∧
    ((Daq.ScaledResult.update cap s scale offset upstream).history.getLast?
        = some (Daq.ScaledResult.update cap s scale offset upstream).value) ∧
    (∀ s', Daq.Flux.update cap s k L o d = .ok s' →
      s'.history.getLast? = some s'.value) ∧
    (∀ s', Daq.ExtrapResult.update cap s kE LE oE f = .ok s' →
      s'.history.getLast? = some s'.value) ∧
    ((Daq.FitResult.update cap s fitted).history.getLast?
        = some (Daq.FitResult.update cap s fitted).value) ∧
    (∀ ps', Daq.PowerResult.update cap ps query = .ok ps' →
      ps'.history.getLast? = some ps'.value) := by
  have base : ∀ t : Daq.ResultState,
      (Daq.Result.update cap t).history.getLast?
        = some (Daq.Result.update cap t).value := by
    intro t
    exact dequeAppend_getLast? cap hcap t.history t.value
  have okBase : ∀ (t s' : Daq.ResultState),
      Except.ok (ε := DaqError) (Daq.Result.update cap t) = .ok s' →
      s'.history.getLast? = some s'.value := by
    intro t s' h
    obtain rfl : Daq.Result.update cap t = s' := Except.ok.inj h
    exact base t
  have pbase : ∀ t : Daq.PowerState,
      (Daq.PowerResult.append cap t).history.getLast?
        = some (Daq.PowerResult.append cap t).value := by
    intro t
    exact dequeAppend_getLast? cap hcap t.history t.value
  refine ⟨?_, base _, ?_, ?_, base _, ?_⟩
  · intro s' h
    unfold Daq.Reading.update at h
    split at h
    · split at h
      · exact absurd h (by simp)
      · split at h
        · exact okBase _ _ h
        · exact okBase _ _ h
    · split at h
      · split at h
        · exact okBase _ _ h
        · exact absurd h (by simp)
      · exact okBase _ _ h
  · intro s' h
    unfold Daq.Flux.update at h
    split at h
    · exact absurd h (by simp)
    · exact okBase _ _ h
  · intro s' h
    unfold Daq.ExtrapResult.update at h
    split at h
    · exact absurd h (by simp)
    · exact okBase _ _ h
  · intro ps' h
    unfold Daq.PowerResult.update at h
    split at h
    · split at h
      · exact absurd h (by simp)
      · split at h
        · obtain rfl := Except.ok.inj h
          exact pbase _
        · obtain rfl := Except.ok.inj h
          exact pbase _
    · split at h
      · split at h
        · exact absurd h (by simp)
        · split at h
          · obtain rfl := Except.ok.inj h
            exact pbase _
          · obtain rfl := Except.ok.inj h
            exact pbase _
      · obtain rfl := Except.ok.inj h
        exact pbase _

theorem update_value_eq_last_history_witness :
    ((Daq.ScaledResult.update 150 ⟨0, []⟩ 2 1 5).history.getLast?
        = some (Daq.ScaledResult.update 150 ⟨0, []⟩ 2 1 5).value) ∧
    ((Daq.ResultState.mk (11 : ℚ) [11]).history.getLast?
        = some (Daq.ResultState.mk (11 : ℚ) [11]).value) := by
  have h := update_value_eq_last_history 150 (by decide) ⟨0, []⟩
    ⟨"T0", 0, 0, "temperature", "C"⟩ (fun _ _ _ => .ok 7) (fun _ _ _ => .ok 7)
    2 1 5 9 1 1 13 2 1 1 13 2 ⟨"V", "V", 0, [], some (), 3⟩ (fun _ => .ok 4)
  exact ⟨h.2.1, h.2.2.1 ⟨11, [11]⟩ (by norm_num [Daq.Flux.update, Daq.Result.update, dequeAppend])⟩

theorem power_close_idempotent_witness :
    Daq.PowerResult.close ⟨"V", "V", 1, [], none, 3⟩ true
        = .ok (⟨"V", "V", 1, [], none, 3⟩, []) ∧
    (Daq.PowerState.mk "V" "V" 1 [] none 3).instrument = none := by
  have h := power_close_idempotent ⟨"V", "V", 1, [], some (), 3⟩ true
  exact ⟨h.1,
    (h.2 ⟨"V", "V", 1, [], none, 3⟩ [.write "output:state off", .closeHandle] rfl).1⟩

end Boilerdaq
